import Mathlib

/-!
Shallow embedding of the master parser (`src/master_parser.py`) of the
audio-inventory repository: directory scanning, duration filtering,
checkpointing and resume.  Pure Lean translations of `MasterParser.worker`
and `MasterParser.parse`, followed by theorems settling the spec claims.

Modelling conventions:
* `min_duration` is a rational; Python evaluates `min_duration * sample_rate`
  and the progress percentage in binary floating point, which agrees with
  exact rational arithmetic on the concrete inputs used below.
* The duration probe (`torchaudio.info`) is an oracle
  `String → Option ProbeInfo`; `none` models the probe raising.
* Exceptions escaping `worker` (in particular `ZeroDivisionError` from
  `(i + 1) % (len(audio_files) // 10)`) are modelled with `Except Unit`.
* `parse` is modelled sequentially: `Pool.starmap` preserves argument order,
  so the per-directory results arrive in directory order; the
  `total_files` accumulation is the sequential-execution reading.
-/

/-- `os.path.dirname` for single-separator POSIX paths: the characters
before the last `/` (empty if there is none).  Implemented structurally on
the character list so concrete runs evaluate. -/
def dirname (p : String) : String :=
  ⟨((p.data.reverse.dropWhile fun c => decide (c ≠ '/')).drop 1).reverse⟩

/-- `suffix` is a suffix of `s` (structural counterpart of the glob
`*.{ext}` matching the end of the file name). -/
def strEndsWith (s suffix : String) : Bool :=
  decide (s.data.drop (s.data.length - suffix.data.length) = suffix.data)

/-- The glob suffixes generated from the extension list passed to
`librosa.util.find_files` on line 76 — `["mp3", "wav", "flac", "ogg",
"m4a"]` (note: no `aiff`) — in their lower- and upper-case forms. -/
def audioExtensions : List String :=
  [".mp3", ".wav", ".flac", ".ogg", ".m4a",
   ".MP3", ".WAV", ".FLAC", ".OGG", ".M4A"]

/-- Extension match of `librosa.util.find_files`. -/
def hasAudioExt (f : String) : Bool :=
  audioExtensions.any fun e => strEndsWith f e

/-- Python compares path strings by code point; structural strict
comparison of the underlying character lists. -/
def charListLt : List Char → List Char → Bool
  | [], [] => false
  | [], _ :: _ => true
  | _ :: _, [] => false
  | a :: as, b :: bs =>
    if a.toNat < b.toNat then true
    else if b.toNat < a.toNat then false
    else charListLt as bs

/-- The `a ≤ b` ordering `sorted` uses on path strings. -/
def strLe (a b : String) : Bool := !charListLt b.data a.data

/-- Insert a string into a sorted list (models the sortedness of
`librosa.util.find_files` output, which sorts the matched set). -/
def insertSorted (a : String) : List String → List String
  | [] => [a]
  | b :: bs => if strLe a b then a :: b :: bs else b :: insertSorted a bs

/-- Sorting of the matched files performed inside `librosa.util.find_files`. -/
def sortStrings : List String → List String
  | [] => []
  | a :: as => insertSorted a (sortStrings as)

/-- `librosa.util.find_files(directory, ext=[...], limit=limit)`: the files of
the (recursively enumerated) directory listing matching the extension set,
sorted, truncated to `limit` when a limit is set. -/
def find_files (listing : List String) (limit : Option ℕ) : List String :=
  let matched := sortStrings (listing.filter hasAudioExt)
  match limit with
  | none => matched
  | some l => matched.take l

/-- Result of a successful `torchaudio.info` call. -/
structure ProbeInfo where
  sample_rate : ℕ
  num_frames : ℕ
deriving DecidableEq, Repr

/-- Python's `round`: round half to even (used for the progress label
`round((i + 1) / len(audio_files) * 100)`). -/
def pyRound (q : ℚ) : ℤ :=
  if q - (⌊q⌋ : ℚ) < 1/2 then ⌊q⌋
  else if (1/2 : ℚ) < q - (⌊q⌋ : ℚ) then ⌊q⌋ + 1
  else if ⌊q⌋ % 2 = 0 then ⌊q⌋ else ⌊q⌋ + 1

/-- One checkpoint emission: the progress label and the kept paths written to
the `...progress{N}.csv` / `.npy` pair. -/
structure Snapshot where
  progress : ℤ
  paths : List String
deriving DecidableEq, Repr

/-- Worker loop state: `filtered_files`, the checkpoint snapshots emitted so
far, and the amount added to `self.total_files`. -/
structure WState where
  filtered : List String
  snapshots : List Snapshot
  total : ℕ
deriving DecidableEq, Repr

/-- Lines 85–89: keep `file` iff `info.num_frames >= int(min_duration *
info.sample_rate)` (Python's `int()` truncates; the product is nonnegative
in every run, so it is the floor). -/
def keepFile (min_duration : ℚ) (info : ProbeInfo) (filtered : List String)
    (file : String) : List String :=
  if ⌊min_duration * (info.sample_rate : ℚ)⌋ ≤ (info.num_frames : ℤ) then
    filtered ++ [file]
  else filtered

/-- The `for i, file in enumerate(audio_files)` loop of `worker`
(lines 78–109): probe, filter, and the 10%-cadence checkpoint block.
`n` is `len(audio_files)`; a probe failure (`none`) hits the `except` branch
and `continue`s past the checkpoint block; when the checkpoint block is
reached with `n / 10 = 0`, Python's `%` raises `ZeroDivisionError`. -/
def runFiles (probe : String → Option ProbeInfo) (min_duration : ℚ) (n : ℕ) :
    ℕ → List String → WState → Except Unit WState
  | _, [], st => .ok st
  | i, file :: rest, st =>
    match probe file with
    | none => runFiles probe min_duration n (i + 1) rest st
    | some info =>
      if n / 10 = 0 then .error ()
      else if (i + 1) % (n / 10) = 0 then
        runFiles probe min_duration n (i + 1) rest
          ⟨keepFile min_duration info st.filtered file,
           st.snapshots ++ [⟨pyRound (((i : ℚ) + 1) / (n : ℚ) * 100),
             keepFile min_duration info st.filtered file⟩],
           st.total + (keepFile min_duration info st.filtered file).length⟩
      else
        runFiles probe min_duration n (i + 1) rest
          ⟨keepFile min_duration info st.filtered file, st.snapshots, st.total⟩

/-- `MasterParser.worker` (lines 73–127) for one directory: enumerate
candidates, run the filter loop, then add `len(filtered_files)` to
`total_files` once more and emit the final `progress100` snapshot. -/
def worker (probe : String → Option ProbeInfo) (min_duration : ℚ)
    (limit : Option ℕ) (listing : List String) : Except Unit WState :=
  match runFiles probe min_duration (find_files listing limit).length 0
      (find_files listing limit) ⟨[], [], 0⟩ with
  | .error e => .error e
  | .ok st =>
      .ok ⟨st.filtered, st.snapshots ++ [⟨100, st.filtered⟩],
           st.total + st.filtered.length⟩

/-- Directory selection of `parse` (lines 130–144): with a prior manifest the
processed set is `{dirname f | f in prior}`; with an explicit list the
scanned set is `list(set(directories) - set(processed))`; with no explicit
list the code assigns `directories = processed_directories` itself; without
a prior manifest the immediate subdirectories of the base are scanned. -/
def selectDirectories (lastFile : Option (List String))
    (dirs : Option (List String)) (baseSubdirs : List String) : List String :=
  match lastFile with
  | some prior =>
    let processed := (prior.map dirname).dedup
    match dirs with
    | some ds => (ds.filter fun d => decide (d ∉ processed)).dedup
    | none => processed
  | none => baseSubdirs

/-- Sequential rendering of the `Pool.starmap` dispatch (lines 146–151):
one worker per directory, results in directory order, `total_files`
contributions summed. -/
def runWorkers (probe : String → Option ProbeInfo) (min_duration : ℚ)
    (limit : Option ℕ) (listing : String → List String) :
    List String → Except Unit (List (List String) × ℕ)
  | [] => .ok ([], 0)
  | d :: ds =>
    match worker probe min_duration limit (listing d) with
    | .error e => .error e
    | .ok st =>
      match runWorkers probe min_duration limit listing ds with
      | .error e => .error e
      | .ok (rs, t) => .ok (st.filtered :: rs, st.total + t)

/-- Outcome of `parse`: the scanned directories, the `file_path` column of
the final `.csv` manifest, the array written to the final `.npy`, and the
accumulated `total_files` counter. -/
structure ParseOut where
  scanned : List String
  manifestCsv : List String
  manifestNpy : List String
  total_files : ℕ
deriving DecidableEq, Repr

/-- `MasterParser.parse` (lines 129–178), sequentially: select directories,
run the workers, flatten, and write the final artifacts.  On resume the
`.csv` rows are the prior entries followed by the new ones (line 156) while
the `.npy` receives only `filtered_files` (line 173). -/
def parse (probe : String → Option ProbeInfo) (min_duration : ℚ)
    (limit : Option ℕ) (listing : String → List String)
    (lastFile : Option (List String)) (dirs : Option (List String))
    (baseSubdirs : List String) : Except Unit ParseOut :=
  match runWorkers probe min_duration limit listing
      (selectDirectories lastFile dirs baseSubdirs) with
  | .error e => .error e
  | .ok (results, total) =>
    .ok ⟨selectDirectories lastFile dirs baseSubdirs,
         (match lastFile with
          | some prior => prior ++ results.flatten
          | none => results.flatten),
         results.flatten, total⟩

/-- `file_path` column of the final `.csv` of a run (empty if the run raised). -/
def csvOf : Except Unit ParseOut → List String
  | .ok o => o.manifestCsv
  | .error _ => []

/-- Contents of the final `.npy` of a run (empty if the run raised). -/
def npyOf : Except Unit ParseOut → List String
  | .ok o => o.manifestNpy
  | .error _ => []

/-- Accumulated `total_files` of a run (zero if the run raised). -/
def totalOf : Except Unit ParseOut → ℕ
  | .ok o => o.total_files
  | .error _ => 0

/-- The checkpoint snapshots a worker emitted (empty if it raised). -/
def snapshotsOf : Except Unit WState → List Snapshot
  | .ok st => st.snapshots
  | .error _ => []

/- Batteries marks the rational-arithmetic primitives `@[irreducible]`,
which blocks `decide`'s evaluation; re-expose them for this development so
concrete runs of the model evaluate. -/
attribute [local semireducible] Rat.mul Rat.inv Rat.add Rat.sub

/-! ### Structural facts about the candidate enumeration -/

lemma insertSorted_perm (a : String) (l : List String) :
    List.Perm (insertSorted a l) (a :: l) := by
  induction l with
  | nil => simp [insertSorted]
  | cons b bs ih =>
    cases h : strLe a b with
    | true => simp [insertSorted, h]
    | false =>
      simp only [insertSorted, h, Bool.false_eq_true, if_false]
      exact (List.Perm.cons b ih).trans (List.Perm.swap a b bs)

lemma sortStrings_perm (l : List String) : List.Perm (sortStrings l) l := by
  induction l with
  | nil => simp [sortStrings]
  | cons a as ih =>
    exact (insertSorted_perm a (sortStrings as)).trans (List.Perm.cons a ih)

lemma mem_sortStrings {x : String} {l : List String} :
    x ∈ sortStrings l ↔ x ∈ l :=
  (sortStrings_perm l).mem_iff

lemma mem_find_files_none {listing : List String} {f : String} :
    f ∈ find_files listing none ↔ f ∈ listing ∧ hasAudioExt f = true := by
  simp [find_files, mem_sortStrings, List.mem_filter]

lemma find_files_subset {listing : List String} {limit : Option ℕ} :
    ∀ f ∈ find_files listing limit, f ∈ listing ∧ hasAudioExt f = true := by
  intro f hf
  match limit with
  | none => exact mem_find_files_none.mp hf
  | some l =>
    have hm : f ∈ sortStrings (listing.filter hasAudioExt) :=
      (List.take_sublist l _).subset hf
    have := mem_sortStrings.mp hm
    exact ⟨(List.mem_filter.mp this).1, (List.mem_filter.mp this).2⟩

lemma find_files_nodup {listing : List String} (h : listing.Nodup)
    (limit : Option ℕ) : (find_files listing limit).Nodup := by
  have hm : (sortStrings (listing.filter hasAudioExt)).Nodup :=
    (sortStrings_perm _).nodup_iff.mpr (List.Nodup.filter _ h)
  match limit with
  | none => exact hm
  | some l => exact List.Nodup.sublist (List.take_sublist l _) hm

/-! ### Facts about Python's round-half-to-even -/

lemma le_pyRound (q : ℚ) : ⌊q⌋ ≤ pyRound q := by
  unfold pyRound; split_ifs <;> omega

lemma pyRound_le (q : ℚ) : pyRound q ≤ ⌊q⌋ + 1 := by
  unfold pyRound; split_ifs <;> omega

lemma pyRound_mono {a b : ℚ} (h : a ≤ b) : pyRound a ≤ pyRound b := by
  have hf : ⌊a⌋ ≤ ⌊b⌋ := Int.floor_mono h
  rcases eq_or_lt_of_le hf with heq | hlt
  · have hfr : a - ((⌊a⌋ : ℤ) : ℚ) ≤ b - ((⌊b⌋ : ℤ) : ℚ) := by
      rw [← heq]; linarith
    unfold pyRound
    rw [← heq]
    rw [← heq] at hfr
    split_ifs <;> first | omega | (exfalso; linarith)
  · calc pyRound a ≤ ⌊a⌋ + 1 := pyRound_le a
      _ ≤ ⌊b⌋ := hlt
      _ ≤ pyRound b := le_pyRound b

lemma pyRound_zero : pyRound 0 = 0 := by decide

lemma pyRound_hundred : pyRound 100 = 100 := by decide

lemma pyRound_self_div_le (n : ℕ) : pyRound ((n : ℚ) / (n : ℚ) * 100) ≤ 100 := by
  rcases Nat.eq_zero_or_pos n with h | h
  · subst h
    norm_num [pyRound_zero]
  · have hn : (n : ℚ) ≠ 0 := Nat.cast_ne_zero.mpr (Nat.pos_iff_ne_zero.mp h)
    rw [div_self hn, one_mul, pyRound_hundred]

lemma progress_arg_mono {a b : ℚ} (h : a ≤ b) (n : ℕ) :
    a / (n : ℚ) * 100 ≤ b / (n : ℚ) * 100 := by
  have h0 : (0 : ℚ) ≤ (n : ℚ)⁻¹ := inv_nonneg.mpr (by positivity)
  have h1 : a * (n : ℚ)⁻¹ ≤ b * (n : ℚ)⁻¹ := mul_le_mul_of_nonneg_right h h0
  have h2 := mul_le_mul_of_nonneg_right h1 (by norm_num : (0 : ℚ) ≤ 100)
  simpa [div_eq_mul_inv] using h2

/-! ### Invariants of the worker loop -/

lemma le_keepFile_length (md : ℚ) (info : ProbeInfo) (filtered : List String)
    (file : String) : filtered.length ≤ (keepFile md info filtered file).length := by
  unfold keepFile; split_ifs <;> simp

lemma runFiles_filtered_append (probe : String → Option ProbeInfo) (md : ℚ) (n : ℕ) :
    ∀ (l : List String) (i : ℕ) (st st' : WState),
      runFiles probe md n i l st = .ok st' →
      ∃ t, st'.filtered = st.filtered ++ t ∧ List.Sublist t l := by
  intro l
  induction l with
  | nil =>
    intro i st st' h
    simp only [runFiles] at h
    cases h
    exact ⟨[], by simp, List.nil_sublist _⟩
  | cons file rest ih =>
    intro i st st' h
    simp only [runFiles] at h
    cases hp : probe file with
    | none =>
      rw [hp] at h
      obtain ⟨t, ht, hs⟩ := ih (i + 1) st st' h
      exact ⟨t, ht, hs.cons file⟩
    | some info =>
      rw [hp] at h
      split_ifs at h with h1 h2
      · obtain ⟨t, ht, hs⟩ := ih (i + 1) _ st' h
        by_cases hk : ⌊md * (info.sample_rate : ℚ)⌋ ≤ (info.num_frames : ℤ)
        · refine ⟨file :: t, ?_, hs.cons₂ file⟩
          simpa [keepFile, hk] using ht
        · exact ⟨t, by simpa [keepFile, hk] using ht, hs.cons file⟩
      · obtain ⟨t, ht, hs⟩ := ih (i + 1) _ st' h
        by_cases hk : ⌊md * (info.sample_rate : ℚ)⌋ ≤ (info.num_frames : ℤ)
        · refine ⟨file :: t, ?_, hs.cons₂ file⟩
          simpa [keepFile, hk] using ht
        · exact ⟨t, by simpa [keepFile, hk] using ht, hs.cons file⟩

lemma runFiles_kept (probe : String → Option ProbeInfo) (md : ℚ) (n : ℕ) :
    ∀ (l : List String) (i : ℕ) (st st' : WState),
      runFiles probe md n i l st = .ok st' →
      ∀ f ∈ st'.filtered, f ∈ st.filtered ∨
        ∃ info, probe f = some info ∧
          ⌊md * (info.sample_rate : ℚ)⌋ ≤ (info.num_frames : ℤ) := by
  intro l
  induction l with
  | nil =>
    intro i st st' h f hf
    simp only [runFiles] at h
    cases h
    exact .inl hf
  | cons file rest ih =>
    intro i st st' h f hf
    simp only [runFiles] at h
    cases hp : probe file with
    | none =>
      rw [hp] at h
      exact ih (i + 1) st st' h f hf
    | some info =>
      rw [hp] at h
      have step : ∀ st₁ : WState,
          st₁.filtered = keepFile md info st.filtered file →
          f ∈ st₁.filtered ∨
            (∃ info, probe f = some info ∧
              ⌊md * (info.sample_rate : ℚ)⌋ ≤ (info.num_frames : ℤ)) →
          f ∈ st.filtered ∨
            ∃ info, probe f = some info ∧
              ⌊md * (info.sample_rate : ℚ)⌋ ≤ (info.num_frames : ℤ) := by
        intro st₁ he hmem
        rcases hmem with hmem | hk
        · rw [he] at hmem
          unfold keepFile at hmem
          split_ifs at hmem with hcond
          · rcases List.mem_append.mp hmem with hl | hr
            · exact .inl hl
            · refine .inr ⟨info, ?_, hcond⟩
              rwa [List.mem_singleton.mp hr]
          · exact .inl hmem
        · exact .inr hk
      split_ifs at h with h1 h2
      · exact step _ rfl (ih (i + 1) _ st' h f hf)
      · exact step _ rfl (ih (i + 1) _ st' h f hf)

lemma runFiles_total_sum (probe : String → Option ProbeInfo) (md : ℚ) (n : ℕ) :
    ∀ (l : List String) (i : ℕ) (st st' : WState),
      runFiles probe md n i l st = .ok st' →
      st.total = (st.snapshots.map fun s => s.paths.length).sum →
      st'.total = (st'.snapshots.map fun s => s.paths.length).sum := by
  intro l
  induction l with
  | nil =>
    intro i st st' h hsum
    simp only [runFiles] at h
    cases h
    exact hsum
  | cons file rest ih =>
    intro i st st' h hsum
    simp only [runFiles] at h
    cases hp : probe file with
    | none =>
      rw [hp] at h
      exact ih (i + 1) st st' h hsum
    | some info =>
      rw [hp] at h
      split_ifs at h with h1 h2
      · refine ih (i + 1) _ st' h ?_
        simp [hsum]
      · exact ih (i + 1) _ st' h hsum

/-- Domination between two emitted snapshots: the later one has at least as
many kept files and at least as large a progress label. -/
def snapR (a b : Snapshot) : Prop :=
  a.paths.length ≤ b.paths.length ∧ a.progress ≤ b.progress

lemma runFiles_snapshots_inv (probe : String → Option ProbeInfo) (md : ℚ) (n : ℕ) :
    ∀ (l : List String) (i : ℕ) (st st' : WState),
      runFiles probe md n i l st = .ok st' →
      st.snapshots.Pairwise snapR →
      (∀ s ∈ st.snapshots, s.paths.length ≤ st.filtered.length ∧
        s.progress ≤ pyRound ((i : ℚ) / (n : ℚ) * 100)) →
      st'.snapshots.Pairwise snapR ∧
      ∀ s ∈ st'.snapshots, s.paths.length ≤ st'.filtered.length ∧
        s.progress ≤ pyRound (((i + l.length : ℕ) : ℚ) / (n : ℚ) * 100) := by
  intro l
  induction l with
  | nil =>
    intro i st st' h hpw hbd
    simp only [runFiles] at h
    cases h
    exact ⟨hpw, by simpa using hbd⟩
  | cons file rest ih =>
    intro i st st' h hpw hbd
    have hcast : (((i + 1 : ℕ) : ℚ)) = (i : ℚ) + 1 := by push_cast; ring
    have hstep : pyRound ((i : ℚ) / (n : ℚ) * 100) ≤
        pyRound (((i + 1 : ℕ) : ℚ) / (n : ℚ) * 100) := by
      rw [hcast]
      exact pyRound_mono (progress_arg_mono (by linarith) n)
    have hidx : (i + 1) + rest.length = i + (file :: rest).length := by
      simp only [List.length_cons]
      omega
    simp only [runFiles] at h
    cases hp : probe file with
    | none =>
      rw [hp] at h
      have hb1 : ∀ s ∈ st.snapshots, s.paths.length ≤ st.filtered.length ∧
          s.progress ≤ pyRound (((i + 1 : ℕ) : ℚ) / (n : ℚ) * 100) :=
        fun s hs => ⟨(hbd s hs).1, le_trans (hbd s hs).2 hstep⟩
      have hres := ih (i + 1) st st' h hpw hb1
      refine ⟨hres.1, fun s hs => ⟨(hres.2 s hs).1, ?_⟩⟩
      rw [← hidx]
      exact (hres.2 s hs).2
    | some info =>
      rw [hp] at h
      split_ifs at h with h1 h2
      · have hlen : st.filtered.length ≤ (keepFile md info st.filtered file).length :=
          le_keepFile_length md info st.filtered file
        have hnewpw : (st.snapshots ++
            [(⟨pyRound (((i : ℚ) + 1) / (n : ℚ) * 100),
              keepFile md info st.filtered file⟩ : Snapshot)]).Pairwise snapR := by
          rw [List.pairwise_append]
          refine ⟨hpw, List.pairwise_singleton _ _, ?_⟩
          intro a ha b hb
          rw [List.mem_singleton] at hb
          subst hb
          refine ⟨le_trans (hbd a ha).1 hlen, le_trans (hbd a ha).2 ?_⟩
          exact pyRound_mono (progress_arg_mono (by linarith) n)
        have hb1 : ∀ s ∈ st.snapshots ++
            [(⟨pyRound (((i : ℚ) + 1) / (n : ℚ) * 100),
              keepFile md info st.filtered file⟩ : Snapshot)],
            s.paths.length ≤ (keepFile md info st.filtered file).length ∧
            s.progress ≤ pyRound (((i + 1 : ℕ) : ℚ) / (n : ℚ) * 100) := by
          intro s hs
          rcases List.mem_append.mp hs with hs | hs
          · exact ⟨le_trans (hbd s hs).1 hlen, le_trans (hbd s hs).2 hstep⟩
          · rw [List.mem_singleton] at hs
            subst hs
            refine ⟨le_refl _, le_of_eq ?_⟩
            rw [hcast]
        have hres := ih (i + 1) _ st' h hnewpw hb1
        refine ⟨hres.1, fun s hs => ⟨(hres.2 s hs).1, ?_⟩⟩
        rw [← hidx]
        exact (hres.2 s hs).2
      · have hlen : st.filtered.length ≤ (keepFile md info st.filtered file).length :=
          le_keepFile_length md info st.filtered file
        have hb1 : ∀ s ∈ st.snapshots,
            s.paths.length ≤ (keepFile md info st.filtered file).length ∧
            s.progress ≤ pyRound (((i + 1 : ℕ) : ℚ) / (n : ℚ) * 100) :=
          fun s hs => ⟨le_trans (hbd s hs).1 hlen, le_trans (hbd s hs).2 hstep⟩
        have hres := ih (i + 1) _ st' h hpw hb1
        refine ⟨hres.1, fun s hs => ⟨(hres.2 s hs).1, ?_⟩⟩
        rw [← hidx]
        exact (hres.2 s hs).2

lemma worker_ok_dest {probe : String → Option ProbeInfo} {md : ℚ}
    {limit : Option ℕ} {listing : List String} {st : WState}
    (h : worker probe md limit listing = .ok st) :
    ∃ st₀, runFiles probe md (find_files listing limit).length 0
        (find_files listing limit) ⟨[], [], 0⟩ = .ok st₀ ∧
      st = ⟨st₀.filtered, st₀.snapshots ++ [⟨100, st₀.filtered⟩],
            st₀.total + st₀.filtered.length⟩ := by
  unfold worker at h
  cases hr : runFiles probe md (find_files listing limit).length 0
      (find_files listing limit) ⟨[], [], 0⟩ with
  | error e => rw [hr] at h; cases h
  | ok st₀ =>
    rw [hr] at h
    cases h
    exact ⟨st₀, rfl, rfl⟩

lemma worker_filtered_sublist {probe : String → Option ProbeInfo} {md : ℚ}
    {limit : Option ℕ} {listing : List String} {st : WState}
    (h : worker probe md limit listing = .ok st) :
    List.Sublist st.filtered (find_files listing limit) := by
  obtain ⟨st₀, hr, rfl⟩ := worker_ok_dest h
  obtain ⟨t, ht, hs⟩ := runFiles_filtered_append probe md _ _ 0 _ st₀ hr
  simpa [ht] using hs

lemma worker_filtered_kept {probe : String → Option ProbeInfo} {md : ℚ}
    {limit : Option ℕ} {listing : List String} {st : WState}
    (h : worker probe md limit listing = .ok st) :
    ∀ f ∈ st.filtered, ∃ info, probe f = some info ∧
      ⌊md * (info.sample_rate : ℚ)⌋ ≤ (info.num_frames : ℤ) := by
  obtain ⟨st₀, hr, rfl⟩ := worker_ok_dest h
  intro f hf
  rcases runFiles_kept probe md _ _ 0 _ st₀ hr f hf with hmem | hk
  · simp at hmem
  · exact hk

lemma worker_total_struct {probe : String → Option ProbeInfo} {md : ℚ}
    {limit : Option ℕ} {listing : List String} {st : WState}
    (h : worker probe md limit listing = .ok st) :
    ∃ mid, st.snapshots = mid ++ [⟨100, st.filtered⟩] ∧
      st.total = (mid.map fun s => s.paths.length).sum + st.filtered.length := by
  obtain ⟨st₀, hr, rfl⟩ := worker_ok_dest h
  refine ⟨st₀.snapshots, rfl, ?_⟩
  have := runFiles_total_sum probe md _ _ 0 _ st₀ hr (by simp)
  simp [this]

lemma worker_filtered_le_total {probe : String → Option ProbeInfo} {md : ℚ}
    {limit : Option ℕ} {listing : List String} {st : WState}
    (h : worker probe md limit listing = .ok st) :
    st.filtered.length ≤ st.total := by
  obtain ⟨mid, hsn, htot⟩ := worker_total_struct h
  omega

lemma worker_filtered_lt_total {probe : String → Option ProbeInfo} {md : ℚ}
    {limit : Option ℕ} {listing : List String} {st : WState}
    (h : worker probe md limit listing = .ok st)
    (hs : ∃ s ∈ st.snapshots.dropLast, s.paths ≠ []) :
    st.filtered.length < st.total := by
  obtain ⟨mid, hsn, htot⟩ := worker_total_struct h
  obtain ⟨s, hsm, hne⟩ := hs
  rw [hsn, List.dropLast_concat] at hsm
  have h1 : s.paths.length ∈ mid.map fun s => s.paths.length :=
    List.mem_map.mpr ⟨s, hsm, rfl⟩
  have h2 : s.paths.length ≤ (mid.map fun s => s.paths.length).sum :=
    List.single_le_sum (fun x _ => Nat.zero_le x) _ h1
  have h3 : 0 < s.paths.length := List.length_pos.mpr hne
  omega

lemma runWorkers_ok_cons {probe : String → Option ProbeInfo} {md : ℚ}
    {limit : Option ℕ} {listing : String → List String} {d : String}
    {ds : List String} {rs : List (List String)} {t : ℕ}
    (h : runWorkers probe md limit listing (d :: ds) = .ok (rs, t)) :
    ∃ st rs' t', worker probe md limit (listing d) = .ok st ∧
      runWorkers probe md limit listing ds = .ok (rs', t') ∧
      rs = st.filtered :: rs' ∧ t = st.total + t' := by
  unfold runWorkers at h
  cases hw : worker probe md limit (listing d) with
  | error e => rw [hw] at h; cases h
  | ok st =>
    rw [hw] at h
    cases hr : runWorkers probe md limit listing ds with
    | error e => rw [hr] at h; cases h
    | ok p =>
      rw [hr] at h
      cases p with
      | mk rs' t' =>
        cases h
        exact ⟨st, rs', t', rfl, rfl, rfl, rfl⟩

lemma runWorkers_flatten_mem {probe : String → Option ProbeInfo} {md : ℚ}
    {limit : Option ℕ} {listing : String → List String} :
    ∀ {ds : List String} {rs : List (List String)} {t : ℕ},
      runWorkers probe md limit listing ds = .ok (rs, t) →
      ∀ x ∈ rs.flatten, ∃ d ∈ ds, x ∈ listing d := by
  intro ds
  induction ds with
  | nil =>
    intro rs t h x hx
    unfold runWorkers at h
    cases h
    simp at hx
  | cons d ds ih =>
    intro rs t h x hx
    obtain ⟨st, rs', t', hw, hr, rfl, rfl⟩ := runWorkers_ok_cons h
    rw [List.flatten_cons] at hx
    rcases List.mem_append.mp hx with hx | hx
    · have h1 : x ∈ find_files (listing d) limit :=
        (worker_filtered_sublist hw).subset hx
      exact ⟨d, List.mem_cons_self d ds, (find_files_subset x h1).1⟩
    · obtain ⟨d', hd', hxd⟩ := ih hr x hx
      exact ⟨d', List.mem_cons_of_mem d hd', hxd⟩

lemma runWorkers_flatten_nodup {probe : String → Option ProbeInfo} {md : ℚ}
    {limit : Option ℕ} {listing : String → List String} :
    ∀ {ds : List String} {rs : List (List String)} {t : ℕ},
      runWorkers probe md limit listing ds = .ok (rs, t) →
      (∀ d ∈ ds, (listing d).Nodup) →
      ds.Pairwise (fun d1 d2 => (listing d1).Disjoint (listing d2)) →
      rs.flatten.Nodup := by
  intro ds
  induction ds with
  | nil =>
    intro rs t h _ _
    unfold runWorkers at h
    cases h
    simp
  | cons d ds ih =>
    intro rs t h hnd hpw
    obtain ⟨st, rs', t', hw, hr, rfl, rfl⟩ := runWorkers_ok_cons h
    rw [List.flatten_cons]
    have hci := List.pairwise_cons.mp hpw
    refine List.Nodup.append ?_ (ih hr (fun d' hd' => hnd d' (.tail d hd')) hci.2) ?_
    · have hnodup : (find_files (listing d) limit).Nodup :=
        find_files_nodup (hnd d (.head ds)) limit
      exact List.Nodup.sublist (worker_filtered_sublist hw) hnodup
    · intro x hx hx'
      have hxl : x ∈ listing d :=
        (find_files_subset x ((worker_filtered_sublist hw).subset hx)).1
      obtain ⟨d', hd', hxd'⟩ := runWorkers_flatten_mem hr x hx'
      exact hci.1 d' hd' hxl hxd'

lemma runWorkers_kept {probe : String → Option ProbeInfo} {md : ℚ}
    {limit : Option ℕ} {listing : String → List String} :
    ∀ {ds : List String} {rs : List (List String)} {t : ℕ},
      runWorkers probe md limit listing ds = .ok (rs, t) →
      ∀ f ∈ rs.flatten, ∃ info, probe f = some info ∧
        ⌊md * (info.sample_rate : ℚ)⌋ ≤ (info.num_frames : ℤ) := by
  intro ds
  induction ds with
  | nil =>
    intro rs t h f hf
    unfold runWorkers at h
    cases h
    simp at hf
  | cons d ds ih =>
    intro rs t h f hf
    obtain ⟨st, rs', t', hw, hr, rfl, rfl⟩ := runWorkers_ok_cons h
    rw [List.flatten_cons] at hf
    rcases List.mem_append.mp hf with hf | hf
    · exact worker_filtered_kept hw f hf
    · exact ih hr f hf

lemma runWorkers_sum_le {probe : String → Option ProbeInfo} {md : ℚ}
    {limit : Option ℕ} {listing : String → List String} :
    ∀ {ds : List String} {rs : List (List String)} {t : ℕ},
      runWorkers probe md limit listing ds = .ok (rs, t) →
      rs.flatten.length ≤ t := by
  intro ds
  induction ds with
  | nil =>
    intro rs t h
    unfold runWorkers at h
    cases h
    simp
  | cons d ds ih =>
    intro rs t h
    obtain ⟨st, rs', t', hw, hr, rfl, rfl⟩ := runWorkers_ok_cons h
    rw [List.flatten_cons, List.length_append]
    have h1 := worker_filtered_le_total hw
    have h2 := ih hr
    omega

lemma runWorkers_sum_lt {probe : String → Option ProbeInfo} {md : ℚ}
    {limit : Option ℕ} {listing : String → List String} :
    ∀ {ds : List String} {rs : List (List String)} {t : ℕ},
      runWorkers probe md limit listing ds = .ok (rs, t) →
      (∃ d ∈ ds, ∃ s ∈ (snapshotsOf (worker probe md limit (listing d))).dropLast,
        s.paths ≠ []) →
      rs.flatten.length < t := by
  intro ds
  induction ds with
  | nil =>
    intro rs t h hex
    simp at hex
  | cons d ds ih =>
    intro rs t h hex
    obtain ⟨st, rs', t', hw, hr, rfl, rfl⟩ := runWorkers_ok_cons h
    rw [List.flatten_cons, List.length_append]
    obtain ⟨d', hd', hsnap⟩ := hex
    rcases List.mem_cons.mp hd' with rfl | hd'
    · have h1 : st.filtered.length < st.total := by
        refine worker_filtered_lt_total hw ?_
        rw [hw] at hsnap
        simpa [snapshotsOf] using hsnap
      have h2 := runWorkers_sum_le hr
      omega
    · have h1 := worker_filtered_le_total hw
      have h2 := ih hr ⟨d', hd', hsnap⟩
      omega

lemma parse_ok_dest {probe : String → Option ProbeInfo} {md : ℚ}
    {limit : Option ℕ} {listing : String → List String}
    {lastFile : Option (List String)} {dirs : Option (List String)}
    {base : List String} {out : ParseOut}
    (h : parse probe md limit listing lastFile dirs base = .ok out) :
    ∃ rs t, runWorkers probe md limit listing
        (selectDirectories lastFile dirs base) = .ok (rs, t) ∧
      out.scanned = selectDirectories lastFile dirs base ∧
      out.manifestNpy = rs.flatten ∧
      out.manifestCsv = lastFile.getD [] ++ rs.flatten ∧
      out.total_files = t := by
  unfold parse at h
  cases hr : runWorkers probe md limit listing
      (selectDirectories lastFile dirs base) with
  | error e => rw [hr] at h; cases h
  | ok p =>
    cases p with
    | mk rs t =>
      rw [hr] at h
      cases h
      refine ⟨rs, t, rfl, rfl, rfl, ?_, rfl⟩
      cases lastFile <;> rfl

/-! ### Concrete runs used by the claim theorems -/

/-- A probe under which every file succeeds with sample rate 1 and
100 frames. -/
def probeAll100 : String → Option ProbeInfo := fun _ => some ⟨1, 100⟩

/-- A listing function with no files anywhere. -/
def emptyListing : String → List String := fun _ => []

/-- Ten qualifying files nested two levels below the directory `r`. -/
def listingC2 : String → List String := fun _ =>
  ["r/s/a0.mp3", "r/s/a1.mp3", "r/s/a2.mp3", "r/s/a3.mp3", "r/s/a4.mp3",
   "r/s/a5.mp3", "r/s/a6.mp3", "r/s/a7.mp3", "r/s/a8.mp3", "r/s/a9.mp3"]

/-- Ten files under `d1`, nothing elsewhere. -/
def listingC2w : String → List String := fun d =>
  if d = "d1" then
    ["d1/a0.mp3", "d1/a1.mp3", "d1/a2.mp3", "d1/a3.mp3", "d1/a4.mp3",
     "d1/a5.mp3", "d1/a6.mp3", "d1/a7.mp3", "d1/a8.mp3", "d1/a9.mp3"]
  else []

/-- A probe reporting sample rate 3 and 4 frames for every file. -/
def probeC3 : String → Option ProbeInfo := fun _ => some ⟨3, 4⟩

/-- Ten audio files in directory `d`. -/
def listingC3 : String → List String := fun _ =>
  ["d/f0.mp3", "d/f1.mp3", "d/f2.mp3", "d/f3.mp3", "d/f4.mp3",
   "d/f5.mp3", "d/f6.mp3", "d/f7.mp3", "d/f8.mp3", "d/f9.mp3"]

/-- A probe under which only `p/f0.mp3` meets a 1-second threshold. -/
def probeC10 : String → Option ProbeInfo :=
  fun f => if f = "p/f0.mp3" then some ⟨1, 100⟩ else some ⟨1, 0⟩

/-- Ten candidate files in directory `p`. -/
def listingC10 : String → List String := fun _ =>
  ["p/f0.mp3", "p/f1.mp3", "p/f2.mp3", "p/f3.mp3", "p/f4.mp3",
   "p/f5.mp3", "p/f6.mp3", "p/f7.mp3", "p/f8.mp3", "p/f9.mp3"]

/-- Eleven prior-manifest entries, all inside directory `p`. -/
def priorC10 : List String :=
  ["p/x0.mp3", "p/x1.mp3", "p/x2.mp3", "p/x3.mp3", "p/x4.mp3",
   "p/x5.mp3", "p/x6.mp3", "p/x7.mp3", "p/x8.mp3", "p/x9.mp3", "p/x10.mp3"]

/-! ### Claim theorems -/

/-- C1: the claim says a resumed run with no explicit directory list scans
the immediate subdirectories of the base minus the parents of prior-manifest
paths, and never re-scans such a parent.  The code (line 138) instead
assigns `directories = processed_directories`: with prior entry
`base/d1/a.mp3` it scans exactly the already-processed `base/d1` and skips
the fresh `base/d2`. -/
theorem C1_resume_scans_processed_parents :
    parse probeAll100 1 none emptyListing (some ["base/d1/a.mp3"]) none
        ["base/d1", "base/d2"] =
      .ok ⟨["base/d1"], ["base/d1/a.mp3"], [], 0⟩ := by
  rfl

/-- C4: the claim says `worker` completes on directories with fewer than ten
candidate files because the 10%-cadence division is guarded.  The code
computes `(i + 1) % (len(audio_files) // 10)` unguarded: a directory with a
single valid audio file raises `ZeroDivisionError` at the first
iteration. -/
theorem C4_small_directory_raises :
    worker (fun _ => some ⟨1, 10⟩) 1 none ["d/a.mp3"] = .error () := by
  rfl

/-- C5: the claim says one corrupt file among N valid qualifying files
yields a result of size N with no abort.  With N = 2 valid files and one
corrupt file the directory has 3 candidates, so the unguarded 10%-cadence
modulus is zero and the worker aborts with `ZeroDivisionError` instead of
returning the 2 valid files. -/
theorem C5_corrupt_directory_raises :
    worker (fun f => if f = "d/bad.mp3" then none else some ⟨1, 100⟩) 1 none
      ["d/a.mp3", "d/bad.mp3", "d/c.mp3"] = .error () := by
  rfl

/-- C7 (counterexample): the claim includes `aiff` in the recognized
extension set, but the code passes only `{mp3, wav, flac, ogg, m4a}` to
`librosa.util.find_files`, so an `.aiff` file is not a candidate. -/
theorem C7_aiff_not_candidate :
    find_files ["d/a.aiff"] none = [] ∧ hasAudioExt "d/a.aiff" = false := by
  exact ⟨rfl, rfl⟩

/-- C7 (amended): with no per-directory limit, the candidate files examined
by `worker` are exactly the files whose extension lies in
`{mp3, wav, ogg, flac, m4a}` — `aiff` is not recognized. -/
theorem C7_candidates_are_extension_matches (listing : List String) (f : String) :
    f ∈ find_files listing none ↔ f ∈ listing ∧ hasAudioExt f = true :=
  mem_find_files_none

/-- C9: on a resumed run with an explicit directory list, the scanned set is
exactly the supplied list minus the set of parent directories of the prior
manifest's paths. -/
theorem C9_explicit_list_subtraction (prior ds base : List String) (d : String) :
    d ∈ selectDirectories (some prior) (some ds) base ↔
      d ∈ ds ∧ d ∉ prior.map dirname := by
  simp [selectDirectories, List.mem_dedup, List.mem_filter]

/-- C2 (counterexample): the final manifest of a resumed run is not
duplicate-free.  The prior manifest records `r/s/a0.mp3`, the explicit
directory list supplies the ancestor `r`; the subtraction removes only the
dirname `r/s`, so `r` is scanned, the recursive listing re-discovers
`r/s/a0.mp3`, and the final `.csv` lists it twice. -/
theorem C2_duplicate_on_resume :
    ¬ (csvOf (parse probeAll100 1 none listingC2
        (some ["r/s/a0.mp3"]) (some ["r"]) [])).Nodup := by
  decide

/-- C2 (amended): in a run without resumeFrom whose scanned directories
have pairwise-disjoint, individually duplicate-free listings, the final
manifest contains each path at most once. -/
theorem C2_fresh_disjoint_run_nodup
    (probe : String → Option ProbeInfo) (md : ℚ) (limit : Option ℕ)
    (listing : String → List String) (base : List String) (out : ParseOut)
    (h : parse probe md limit listing none none base = .ok out)
    (hnd : ∀ d ∈ base, (listing d).Nodup)
    (hdisj : base.Pairwise fun d1 d2 => (listing d1).Disjoint (listing d2)) :
    out.manifestCsv.Nodup := by
  obtain ⟨rs, t, hr, hscan, hnpy, hcsv, htot⟩ := parse_ok_dest h
  rw [hcsv]
  simpa using runWorkers_flatten_nodup hr hnd hdisj

/-- C2 (witness): a fresh two-directory run with ten distinct files under
`d1` satisfies the amended theorem's hypotheses and yields a
duplicate-free manifest. -/
theorem C2_witness :
    (parse probeAll100 1 none listingC2w none none ["d1", "d2"] =
      .ok ⟨["d1", "d2"],
        ["d1/a0.mp3", "d1/a1.mp3", "d1/a2.mp3", "d1/a3.mp3", "d1/a4.mp3",
         "d1/a5.mp3", "d1/a6.mp3", "d1/a7.mp3", "d1/a8.mp3", "d1/a9.mp3"],
        ["d1/a0.mp3", "d1/a1.mp3", "d1/a2.mp3", "d1/a3.mp3", "d1/a4.mp3",
         "d1/a5.mp3", "d1/a6.mp3", "d1/a7.mp3", "d1/a8.mp3", "d1/a9.mp3"], 65⟩) ∧
    (∀ d ∈ ["d1", "d2"], (listingC2w d).Nodup) ∧
    (["d1", "d2"].Pairwise fun d1 d2 => (listingC2w d1).Disjoint (listingC2w d2)) ∧
    (ParseOut.mk ["d1", "d2"]
        ["d1/a0.mp3", "d1/a1.mp3", "d1/a2.mp3", "d1/a3.mp3", "d1/a4.mp3",
         "d1/a5.mp3", "d1/a6.mp3", "d1/a7.mp3", "d1/a8.mp3", "d1/a9.mp3"]
        ["d1/a0.mp3", "d1/a1.mp3", "d1/a2.mp3", "d1/a3.mp3", "d1/a4.mp3",
         "d1/a5.mp3", "d1/a6.mp3", "d1/a7.mp3", "d1/a8.mp3", "d1/a9.mp3"]
        65).manifestCsv.Nodup := by
  refine ⟨rfl, by decide, ?_, ?_⟩
  · simp [listingC2w, List.Disjoint]
  · exact C2_fresh_disjoint_run_nodup probeAll100 1 none listingC2w ["d1", "d2"] _
      rfl (by decide) (by simp [listingC2w, List.Disjoint])

/-- C3 (counterexample): with minDuration = 3/2 seconds, a file probing at
sample rate 3 with 4 frames is admitted to the manifest although
4 < 3/2 × 3 = 4.5: the code compares against `int(min_duration *
sample_rate)`, the truncated product. -/
theorem C3_truncated_threshold_counterexample :
    "d/f0.mp3" ∈ npyOf (parse probeC3 (3/2) none listingC3 none none ["d"]) ∧
    probeC3 "d/f0.mp3" = some ⟨3, 4⟩ ∧ ((4 : ℚ) < 3/2 * 3) := by
  refine ⟨by decide, rfl, by norm_num⟩

/-- C3 (amended): every file newly added to the final manifest by a run was
probed successfully and its probed frame count is at least
⌊minDuration × probedSampleRate⌋, the truncated product the code uses. -/
theorem C3_manifest_meets_truncated_threshold
    (probe : String → Option ProbeInfo) (md : ℚ) (limit : Option ℕ)
    (listing : String → List String) (lastFile : Option (List String))
    (dirs : Option (List String)) (base : List String) (f : String)
    (h : f ∈ npyOf (parse probe md limit listing lastFile dirs base)) :
    ∃ info, probe f = some info ∧
      ⌊md * (info.sample_rate : ℚ)⌋ ≤ (info.num_frames : ℤ) := by
  cases hp : parse probe md limit listing lastFile dirs base with
  | error e => rw [hp] at h; simp [npyOf] at h
  | ok out =>
    rw [hp] at h
    obtain ⟨rs, t, hr, hscan, hnpy, hcsv, htot⟩ := parse_ok_dest hp
    rw [show npyOf (.ok out) = out.manifestNpy from rfl, hnpy] at h
    exact runWorkers_kept hr f h

/-- C3 (witness): with minDuration = 1 the manifest entry `d/f0.mp3`
(sample rate 3, 4 frames) satisfies the amended bound ⌊1 × 3⌋ ≤ 4. -/
theorem C3_witness :
    "d/f0.mp3" ∈ npyOf (parse probeC3 1 none listingC3 none none ["d"]) ∧
    (∃ info, probeC3 "d/f0.mp3" = some info ∧
      ⌊(1 : ℚ) * (info.sample_rate : ℚ)⌋ ≤ (info.num_frames : ℤ)) :=
  ⟨by decide,
   C3_manifest_meets_truncated_threshold probeC3 1 none listingC3 none none ["d"]
     "d/f0.mp3" (by decide)⟩

/-- C6 (counterexample): on a resumed run the final `.csv` carries the
prior manifest's entry but the final `.npy` (written from `filtered_files`
only, line 173) does not, so the two artifacts hold different path sets. -/
theorem C6_artifact_divergence_on_resume :
    csvOf (parse probeAll100 1 none emptyListing (some ["d1/a.mp3"]) none [])
      = ["d1/a.mp3"] ∧
    npyOf (parse probeAll100 1 none emptyListing (some ["d1/a.mp3"]) none [])
      = [] :=
  ⟨rfl, rfl⟩

/-- C6 (amended): the final `.csv` always equals the prior manifest's
entries (empty when not resuming) followed by the final `.npy` contents;
hence the two artifacts coincide exactly on non-resumed runs, while on a
resumed run the `.npy` misses the prior entries. -/
theorem C6_csv_is_prior_append_npy
    (probe : String → Option ProbeInfo) (md : ℚ) (limit : Option ℕ)
    (listing : String → List String) (lastFile : Option (List String))
    (dirs : Option (List String)) (base : List String) (out : ParseOut)
    (h : parse probe md limit listing lastFile dirs base = .ok out) :
    out.manifestCsv = lastFile.getD [] ++ out.manifestNpy := by
  obtain ⟨rs, t, hr, hscan, hnpy, hcsv, htot⟩ := parse_ok_dest h
  rw [hcsv, hnpy]

/-- C6 (witness): a non-resumed empty run, whose `.csv` equals
`[] ++ .npy`. -/
theorem C6_witness :
    (parse probeAll100 1 none emptyListing none none ["d"] =
      .ok ⟨["d"], [], [], 0⟩) ∧
    (ParseOut.mk ["d"] [] [] 0).manifestCsv =
      (none : Option (List String)).getD [] ++ (ParseOut.mk ["d"] [] [] 0).manifestNpy :=
  ⟨rfl, C6_csv_is_prior_append_npy probeAll100 1 none emptyListing none none ["d"] _ rfl⟩

/-- C8: for every directory whose worker completes, the checkpoint
snapshots are pairwise dominated in emission order: later snapshots have at
least as many kept files and at least as large a progress label. -/
theorem C8_worker_checkpoints_monotone
    (probe : String → Option ProbeInfo) (md : ℚ) (limit : Option ℕ)
    (listing : List String) (st : WState)
    (h : worker probe md limit listing = .ok st) :
    st.snapshots.Pairwise snapR := by
  obtain ⟨st₀, hr, rfl⟩ := worker_ok_dest h
  have hinv := runFiles_snapshots_inv probe md (find_files listing limit).length
      (find_files listing limit) 0 ⟨[], [], 0⟩ st₀ hr (by simp) (by simp)
  show (st₀.snapshots ++ [(⟨100, st₀.filtered⟩ : Snapshot)]).Pairwise snapR
  rw [List.pairwise_append]
  refine ⟨hinv.1, List.pairwise_singleton _ _, ?_⟩
  intro a ha b hb
  rw [List.mem_singleton] at hb
  subst hb
  have hband := hinv.2 a ha
  refine ⟨hband.1, le_trans hband.2 ?_⟩
  have hz : (0 + (find_files listing limit).length) =
      (find_files listing limit).length := Nat.zero_add _
  rw [hz]
  exact pyRound_self_div_le _

/-- C8 (witness): the empty directory's worker emits only the final
snapshot, a monotone one-element sequence. -/
theorem C8_witness :
    worker probeAll100 1 none [] = .ok ⟨[], [⟨100, []⟩], 0⟩ ∧
    (WState.mk [] [⟨100, []⟩] 0).snapshots.Pairwise snapR :=
  ⟨rfl, C8_worker_checkpoints_monotone probeAll100 1 none [] _ rfl⟩

/-- C10 (counterexample): a resumed sequential run violating the claimed
strict inequality.  Directory `p` has ten candidates and `p/f0.mp3` is kept
at the first intermediate checkpoint, yet `total_files` accumulates to 11
while the final manifest (11 prior entries plus the new file) has 12
entries, so total is not strictly greater. -/
theorem C10_total_files_counterexample :
    (find_files (listingC10 "p") none).length = 10 ∧
    (∃ s ∈ (snapshotsOf (worker probeC10 1 none (listingC10 "p"))).dropLast,
      s.paths ≠ []) ∧
    totalOf (parse probeC10 1 none listingC10 (some priorC10) none []) = 11 ∧
    (csvOf (parse probeC10 1 none listingC10 (some priorC10) none [])).length = 12 ∧
    ¬ ((csvOf (parse probeC10 1 none listingC10 (some priorC10) none [])).length <
        totalOf (parse probeC10 1 none listingC10 (some priorC10) none [])) := by
  refine ⟨by decide, by decide, by decide, by decide, by decide⟩

/-- C10 (amended): in a sequential run without resumeFrom, if some scanned
directory emitted an intermediate (non-final) checkpoint with at least one
kept file, the accumulated `total_files` strictly exceeds the number of
entries in the final manifest. -/
theorem C10_total_exceeds_manifest
    (probe : String → Option ProbeInfo) (md : ℚ) (limit : Option ℕ)
    (listing : String → List String) (base : List String) (out : ParseOut)
    (h : parse probe md limit listing none none base = .ok out)
    (hex : ∃ d ∈ base,
      ∃ s ∈ (snapshotsOf (worker probe md limit (listing d))).dropLast,
        s.paths ≠ []) :
    out.manifestCsv.length < out.total_files := by
  obtain ⟨rs, t, hr, hscan, hnpy, hcsv, htot⟩ := parse_ok_dest h
  rw [hcsv, htot]
  simpa using runWorkers_sum_lt hr hex

/-- C10 (witness): the non-resumed run over directory `p` keeps one file,
emits it in an intermediate checkpoint, and reports `total_files = 11`
against a one-entry manifest. -/
theorem C10_witness :
    (parse probeC10 1 none listingC10 none none ["p"] =
      .ok ⟨["p"], ["p/f0.mp3"], ["p/f0.mp3"], 11⟩) ∧
    (∃ d ∈ ["p"],
      ∃ s ∈ (snapshotsOf (worker probeC10 1 none (listingC10 d))).dropLast,
        s.paths ≠ []) ∧
    (ParseOut.mk ["p"] ["p/f0.mp3"] ["p/f0.mp3"] 11).manifestCsv.length <
      (ParseOut.mk ["p"] ["p/f0.mp3"] ["p/f0.mp3"] 11).total_files :=
  ⟨rfl, by decide,
   C10_total_exceeds_manifest probeC10 1 none listingC10 ["p"] _ rfl (by decide)⟩
